import Mathlib

set_option maxHeartbeats 1000000

namespace FsIndex

/-! Shallow embedding of the fs-index repository: `src/main.rs` (the gitignore-aware
tree indexer) and `src/bin/size.rs` (the standalone size aggregator).

Modelling conventions:
- A filesystem path is its list of components (`FsPath`); `Path::file_name` is the
  final component when it is a normal component (`none` for an empty path or a path
  terminating in `..` or `.`, as in Rust).
- The filesystem reachable from a path is an inductive tree `FSTree`. A `broken`
  entry is one whose `fs::metadata` stat fails; a `dir` with `readable = false` is
  one whose `fs::read_dir` fails. A `file` carries its byte length and, so that
  `.gitignore` files have contents, the list of ignore-pattern lines it holds
  (relevant only when the file is named `.gitignore`).
- `u64` byte sizes are modelled as `Nat` (the sums the two tools perform stay far
  below 2^64 for any filesystem the OS can report, so wrap-around never occurs).
- `io::Result` is `Except Unit` (the error payload is irrelevant to the claims);
  a process panic (an `unwrap` of `None`) is the distinguished outcome `panicked`.
- The third-party `ignore` crate is modelled at the granularity the claims need:
  a parsed pattern line is a base-name matcher with a directory-only flag and a
  validity flag; `GitignoreBuilder::add` records malformed lines as an error that
  `read_gitignore` discards, keeping the valid lines; `Gitignore::matched` strips
  the builder root from the candidate (as the crate's `strip` does) and an empty
  relative candidate matches nothing.
-/

/-- Node kind tag, mirroring the Rust `enum NodeType { File, Directory, IgnoredDirectory }`. -/
inductive NodeType where
  | File
  | Directory
  | IgnoredDirectory
deriving DecidableEq, Repr

/-- In-memory tree node, mirroring `struct FileNode { name, size, node_type, children }`. -/
inductive FileNode where
  | mk (name : String) (size : Nat) (node_type : NodeType) (children : List FileNode)
deriving Repr

def FileNode.name : FileNode → String
  | .mk n _ _ _ => n

def FileNode.size : FileNode → Nat
  | .mk _ s _ _ => s

def FileNode.node_type : FileNode → NodeType
  | .mk _ _ t _ => t

def FileNode.children : FileNode → List FileNode
  | .mk _ _ _ cs => cs

/-- Mirrors `FileNode::add_child`: `self.size += child.size; self.children.push(child)`. -/
def FileNode.add_child : FileNode → FileNode → FileNode
  | .mk n s t cs, c => .mk n (s + c.size) t (cs ++ [c])

/-- A path, as its list of components. -/
abbrev FsPath := List String

/-- Mirrors `Path::file_name`: the last component when it is a normal component;
`none` for an empty path or a path terminating in `..` or `.`. -/
def file_name (p : FsPath) : Option String :=
  match p.getLast? with
  | none => none
  | some s => if s = ".." ∨ s = "." then none else some s

/-- Mirrors `Path::to_string_lossy` on the whole path: the components joined by `/`. -/
def pathString (p : FsPath) : String :=
  String.intercalate "/" p

/-- One line of an ignore-pattern file, as the `ignore` crate's parser sees it.
Glob matching is abstracted to base-name equality: `pat` is the base name the
line matches, `dirOnly` records a trailing slash (a directory-only pattern such
as `build/`), and `valid` records whether the line parses as a glob at all. -/
structure Pattern where
  pat : String
  dirOnly : Bool
  valid : Bool
deriving DecidableEq, Repr

/-- A built rule set, mirroring the crate's `Gitignore`: the builder root plus the
successfully compiled patterns. -/
structure Gitignore where
  root : FsPath
  patterns : List Pattern
deriving DecidableEq, Repr

/-- Strip the builder root from a candidate path, mirroring the crate's `strip`:
when the root is a prefix of the candidate it is removed, otherwise the candidate
is used as given. -/
def dropRoot (root p : FsPath) : FsPath :=
  if p.take root.length = root then p.drop root.length else p

/-- Mirrors `Gitignore::matched(path, is_dir).is_ignore()`: the candidate is taken
relative to the builder root; an empty relative candidate matches nothing; otherwise
a pattern matches when its base name equals the candidate's base name and, for a
directory-only pattern, the candidate is a directory. -/
def Gitignore.matched (g : Gitignore) (p : FsPath) (is_dir : Bool) : Bool :=
  match (dropRoot g.root p).getLast? with
  | none => false
  | some base => g.patterns.any fun l => l.pat == base && (!l.dirOnly || is_dir)

/-- The filesystem subtree reachable from one entry.
`file name size ignoreLines`: a regular file of the given byte length whose contents,
read as ignore-pattern lines, are `ignoreLines` (only consulted when the file is
named `.gitignore`). `dir name readable entries`: a directory; `readable = false`
means `fs::read_dir` on it fails. `broken name`: an entry whose `fs::metadata` fails. -/
inductive FSTree where
  | file (name : String) (size : Nat) (ignoreLines : List Pattern)
  | dir (name : String) (readable : Bool) (entries : List FSTree)
  | broken (name : String)
deriving Repr

def FSTree.name : FSTree → String
  | .file n _ _ => n
  | .dir n _ _ => n
  | .broken n => n

/-- The parsed lines of the `.gitignore` file sitting directly among the given
directory entries, or `[]` when no such file exists (mirrors the
`gitignore_path.exists()` check; a non-file entry of that name contributes no
lines, as `builder.add` on it only yields a discarded error). -/
def findIgnoreLines : List FSTree → List Pattern
  | [] => []
  | .file n _ ls :: es => if n = ".gitignore" then ls else findIgnoreLines es
  | _ :: es => findIgnoreLines es

/-- Mirrors `read_gitignore`: a builder rooted at `path`; the `.gitignore` in the
directory, if present, is added — the error `add` returns for malformed lines is
discarded and those lines are skipped, the valid lines are kept — and the set is
built. (The source unwraps `build()`; the build of the lines that survived `add`
succeeds, so the function is total.) -/
def read_gitignore (path : FsPath) (entries : List FSTree) : Gitignore :=
  ⟨path, (findIgnoreLines entries).filter (·.valid)⟩

/-- Outcome of running a fallible computation: an `io::Result` value, an
`io::Result` error, or a process panic. -/
inductive Outcome (α : Type) where
  | ok (a : α)
  | err
  | panicked
deriving DecidableEq, Repr

def Outcome.toOption : Outcome α → Option α
  | .ok a => some a
  | _ => none

def Outcome.isPanic : Outcome α → Bool
  | .panicked => true
  | _ => false

mutual

/-- Mirrors `calculate_ignored_size`: iterate `fs::read_dir(path)`, stat each entry
(`?` propagates the error), add file lengths, recurse into directories. Called on a
directory path; on a file path `read_dir` fails. -/
def calculate_ignored_size : FSTree → Except Unit Nat
  | .file _ _ _ => .error ()
  | .broken _ => .error ()
  | .dir _ readable es => if readable then ignoredSizeList es else .error ()

def ignoredSizeList : List FSTree → Except Unit Nat
  | [] => .ok 0
  | .broken _ :: _ => .error ()
  | .file _ s _ :: es =>
      match ignoredSizeList es with
      | .error e' => .error e'
      | .ok rest => .ok (s + rest)
  | .dir n r sub :: es =>
      match calculate_ignored_size (.dir n r sub) with
      | .error e' => .error e'
      | .ok s =>
          match ignoredSizeList es with
          | .error e' => .error e'
          | .ok rest => .ok (s + rest)

end

mutual

/-- Mirrors `calculate_folder_size` (src/bin/size.rs): stat the path (`?`); a file
contributes its length; otherwise enumerate the directory (`?`) and sum each
entry's recursively computed size, any entry's error failing the whole computation
(`try_fold` / `try_reduce`). The parallel reduction is written here in list order;
order-independence is proved separately. -/
def calculate_folder_size : FSTree → Except Unit Nat
  | .broken _ => .error ()
  | .file _ s _ => .ok s
  | .dir _ readable es => if readable then folderSizeList es else .error ()

def folderSizeList : List FSTree → Except Unit Nat
  | [] => .ok 0
  | e :: es =>
      match calculate_folder_size e with
      | .error e' => .error e'
      | .ok s =>
          match folderSizeList es with
          | .error e' => .error e'
          | .ok rest => .ok (s + rest)

end

mutual

/-- Mirrors `index_folder`: stat the path (`?`); unwrap `path.file_name()` (a panic
when it is `None`); a file is returned as a `File` node — the ignore check on it is
performed but both branches return the same node; a directory loads a fresh rule
set from its own `.gitignore`, short-circuits to an `IgnoredDirectory` leaf named
by the full path string when that fresh set matches the directory itself, and
otherwise enumerates its entries (`?`), indexes each against the fresh set,
silently drops any child whose indexing fails (`entry.ok()` / `.ok()` inside
`filter_map`), and folds the survivors into a `Directory` node with `add_child`.
A panic inside a child task propagates. -/
def index_folder (path : FsPath) (t : FSTree) (g : Gitignore) : Outcome FileNode :=
  match t with
  | .broken _ => .err
  | .file _ size _ =>
      match file_name path with
      | none => .panicked
      | some name =>
          if g.matched path false then .ok (.mk name size .File [])
          else .ok (.mk name size .File [])
  | .dir nm readable es =>
      match file_name path with
      | none => .panicked
      | some name =>
          let newG := read_gitignore path es
          if newG.matched path true then
            match calculate_ignored_size (.dir nm readable es) with
            | .error _ => .err
            | .ok size => .ok (.mk (pathString path) size .IgnoredDirectory [])
          else
            if readable then
              let results := indexChildren path es newG
              if results.any Outcome.isPanic then .panicked
              else
                .ok (List.foldl FileNode.add_child (.mk name 0 .Directory [])
                      (results.filterMap Outcome.toOption))
            else .err

def indexChildren (path : FsPath) (es : List FSTree) (g : Gitignore) :
    List (Outcome FileNode) :=
  match es with
  | [] => []
  | e :: rest => index_folder (path ++ [e.name]) e g :: indexChildren path rest g

end

/-! Spec-side definitions: the mathematical sum of file lengths, readability and
well-formedness predicates on filesystem trees, and the node invariant. -/

mutual

/-- Sum of the byte lengths of every file reachable from the tree (the spec's
"sum of lengths of every file reachable from T"). -/
def sumFiles : FSTree → Nat
  | .file _ s _ => s
  | .broken _ => 0
  | .dir _ _ es => sumFilesList es

def sumFilesList : List FSTree → Nat
  | [] => 0
  | e :: es => sumFiles e + sumFilesList es

end

mutual

/-- Every entry of the tree can be stat'ed and every directory read (no read
errors anywhere). -/
def allReadable : FSTree → Bool
  | .file _ _ _ => true
  | .broken _ => false
  | .dir _ readable es => readable && allReadableList es

def allReadableList : List FSTree → Bool
  | [] => true
  | e :: es => allReadable e && allReadableList es

end

/-- An entry name a real directory enumeration can produce: `fs::read_dir` never
yields `..` or `.` entries, so `Path::file_name` on an enumerated child is never
`None`. -/
def goodName (s : String) : Bool :=
  s ≠ ".." && s ≠ "."

mutual

/-- Every entry in the tree has a name a real directory enumeration can produce. -/
def wellNamed : FSTree → Bool
  | .file n _ _ => goodName n
  | .broken n => goodName n
  | .dir n _ es => goodName n && wellNamedList es

def wellNamedList : List FSTree → Bool
  | [] => true
  | e :: es => wellNamed e && wellNamedList es

end

mutual

/-- No file named `.gitignore` anywhere in the tree (the spec's "no ignore rules
anywhere"). -/
def noIgnoreFiles : FSTree → Bool
  | .file n _ _ => n ≠ ".gitignore"
  | .broken _ => true
  | .dir _ _ es => noIgnoreFilesList es

def noIgnoreFilesList : List FSTree → Bool
  | [] => true
  | e :: es => noIgnoreFiles e && noIgnoreFilesList es

end

/-- Sum of the `size` fields of a list of nodes. -/
def sumSizes : List FileNode → Nat
  | [] => 0
  | c :: cs => c.size + sumSizes cs

mutual

/-- The §3 node invariant, at every node of the tree: a `Directory` node's size is
the sum of its children's sizes; a `File` or `IgnoredDirectory` node has no
children (so `children` is non-empty only for `Directory`). -/
def sizeInvariant : FileNode → Bool
  | .mk _ s t cs =>
      (match t with
       | .Directory => s == sumSizes cs
       | _ => cs.isEmpty) && sizeInvariantList cs

def sizeInvariantList : List FileNode → Bool
  | [] => true
  | c :: cs => sizeInvariant c && sizeInvariantList cs

end

/-- The surviving children a directory's indexing run collects: each entry indexed
against the directory's fresh rule set, failures dropped. -/
def survivingChildren (path : FsPath) (es : List FSTree) : List FileNode :=
  (indexChildren path es (read_gitignore path es)).filterMap Outcome.toOption

/-! Model of the structured (JSON) form. `serde_json` is modelled at the JSON value
level: `to_string_pretty` renders a value of this type to text and `from_str`
parses it back, an injective rendering, so the round-trip of interest is
value-to-value. The serde derive for `FileNode` produces an object with fields
`name`, `size`, `node_type` (a unit enum variant, rendered as its name string) and
`children`; parsing rebuilds the node from those fields. -/

inductive Json where
  | str (s : String)
  | num (n : Nat)
  | arr (elems : List Json)
  | obj (fields : List (String × Json))
deriving Repr

/-- Rendering of a `NodeType` value by serde: the variant name as a string. -/
def NodeType.tag : NodeType → String
  | .File => "File"
  | .Directory => "Directory"
  | .IgnoredDirectory => "IgnoredDirectory"

mutual

/-- Serialization of a node, as the serde derive emits it. -/
def serializeNode : FileNode → Json
  | .mk n s t cs =>
      .obj [("name", .str n), ("size", .num s), ("node_type", .str t.tag),
            ("children", .arr (serializeNodeList cs))]

def serializeNodeList : List FileNode → List Json
  | [] => []
  | c :: cs => serializeNode c :: serializeNodeList cs

end

/-- Field lookup in a JSON object. -/
def getField : List (String × Json) → String → Option Json
  | [], _ => none
  | (k, v) :: fs, key => if k = key then some v else getField fs key

/-- Parsing of a `NodeType` from its serialized form. -/
def parseNodeType : Json → Option NodeType
  | .str "File" => some .File
  | .str "Directory" => some .Directory
  | .str "IgnoredDirectory" => some .IgnoredDirectory
  | _ => none

/-- A value a field lookup returns is smaller than the object it came from. -/
theorem sizeOf_getField : ∀ (fs : List (String × Json)) (key : String) (v : Json),
    getField fs key = some v → sizeOf v < 1 + sizeOf fs := by
  intro fs key v h
  induction fs with
  | nil => simp [getField] at h
  | cons kv fs ih =>
      obtain ⟨k, w⟩ := kv
      by_cases hk : k = key
      · simp [getField, hk] at h
        subst h
        simp
        omega
      · simp [getField, hk] at h
        have := ih h
        simp
        omega

mutual

/-- Parsing of a serialized node, as the serde derive's `Deserialize` does. -/
def parseNode : Json → Option FileNode
  | .obj fs =>
      match getField fs "name", getField fs "size",
            getField fs "node_type", hc : getField fs "children" with
      | some (.str n), some (.num s), some tj, some (.arr cj) =>
          match parseNodeType tj, parseNodeList cj with
          | some t, some cs => some (.mk n s t cs)
          | _, _ => none
      | _, _, _, _ => none
  | _ => none
termination_by j => sizeOf j
decreasing_by
  have := sizeOf_getField fs "children" _ hc
  simp at this ⊢
  omega

def parseNodeList : List Json → Option (List FileNode)
  | [] => some []
  | j :: js =>
      match parseNode j, parseNodeList js with
      | some c, some cs => some (c :: cs)
      | _, _ => none
termination_by js => sizeOf js
decreasing_by
  all_goals simp
  all_goals omega

end

/-! Sibling reordering. The rayon fan-out collects children in completion order, so
two trees that differ only by a permutation of siblings (at any set of levels)
describe the same filesystem traversed in two different orders. -/

mutual

/-- Two filesystem trees equal up to reordering of sibling entries at every level:
the entry lists of matching directories are pointwise related through some
intermediate list which is then permuted. -/
def TreePerm : FSTree → FSTree → Prop
  | .file n s ls, .file n' s' ls' => n = n' ∧ s = s' ∧ ls = ls'
  | .broken n, .broken n' => n = n'
  | .dir n r es, .dir n' r' es' =>
      n = n' ∧ r = r' ∧ ∃ mid, Aligned es mid ∧ mid.Perm es'
  | _, _ => False

/-- Pointwise `TreePerm` between two entry lists. -/
def Aligned : List FSTree → List FSTree → Prop
  | [], [] => True
  | t :: l, t' :: l' => TreePerm t t' ∧ Aligned l l'
  | _, _ => False

end

/-! Helper lemmas. -/

theorem file_name_append (path : FsPath) (n : String) (h : goodName n = true) :
    file_name (path ++ [n]) = some n := by
  simp only [goodName, Bool.and_eq_true, decide_eq_true_eq] at h
  simp [file_name, List.getLast?_concat, h.1, h.2]

theorem goodName_of_wellNamed {t : FSTree} (h : wellNamed t = true) :
    goodName t.name = true := by
  cases t <;> simp_all [wellNamed, FSTree.name]

theorem isPanic_eq_false {α : Type} {o : Outcome α} (h : o ≠ .panicked) :
    o.isPanic = false := by
  cases o <;> simp_all [Outcome.isPanic]

theorem foldl_add_child (cs : List FileNode) :
    ∀ (n : String) (s : Nat) (k : NodeType) (acc : List FileNode),
    List.foldl FileNode.add_child (.mk n s k acc) cs = .mk n (s + sumSizes cs) k (acc ++ cs) := by
  induction cs with
  | nil => intro n s k acc; simp [sumSizes]
  | cons c cs ih =>
      intro n s k acc
      simp only [List.foldl, FileNode.add_child, ih, sumSizes]
      simp [Nat.add_assoc]

theorem indexChildren_eq_map (path : FsPath) (g : Gitignore) (es : List FSTree) :
    indexChildren path es g = es.map fun e => index_folder (path ++ [e.name]) e g := by
  induction es with
  | nil => simp [indexChildren]
  | cons e es ih => simp [indexChildren, ih]

theorem matched_nil (p q : FsPath) (d : Bool) : Gitignore.matched ⟨p, []⟩ q d = false := by
  simp only [Gitignore.matched]
  split <;> simp

theorem findIgnoreLines_eq_nil {es : List FSTree} (h : noIgnoreFilesList es = true) :
    findIgnoreLines es = [] := by
  induction es with
  | nil => rfl
  | cons e es ih =>
      simp only [noIgnoreFilesList, Bool.and_eq_true] at h
      cases e with
      | file n s ls =>
          have hn : n ≠ ".gitignore" := by
            have := h.1; simp [noIgnoreFiles] at this; exact this
          simp [findIgnoreLines, hn, ih h.2]
      | dir n r sub => simp [findIgnoreLines, ih h.2]
      | broken n => simp [findIgnoreLines, ih h.2]

mutual

theorem index_no_panic : ∀ (path : FsPath) (t : FSTree) (g : Gitignore) (nm : String),
    file_name path = some nm → wellNamed t = true →
    index_folder path t g ≠ .panicked
  | path, .file n s ls, g, nm, h, _ => by
      simp only [index_folder, h]
      split <;> simp
  | _, .broken n, g, nm, h, _ => by simp [index_folder]
  | path, .dir n r es, g, nm, h, hw => by
      simp only [wellNamed, Bool.and_eq_true] at hw
      have hch := children_no_panic path es (read_gitignore path es) hw.2
      simp only [index_folder, h]
      split
      · split <;> simp
      · split
        · simp only [hch, Bool.false_eq_true, if_false]
          simp
        · simp

theorem children_no_panic : ∀ (path : FsPath) (es : List FSTree) (g : Gitignore),
    wellNamedList es = true →
    (indexChildren path es g).any Outcome.isPanic = false
  | _, [], g, _ => rfl
  | path, e :: es, g, h => by
      simp only [wellNamedList, Bool.and_eq_true] at h
      have h1 := index_no_panic (path ++ [e.name]) e g e.name
        (file_name_append path e.name (goodName_of_wellNamed h.1)) h.1
      have h2 := children_no_panic path es g h.2
      simp [indexChildren, List.any, isPanic_eq_false h1, h2]

end

mutual

theorem calc_ok : ∀ (t : FSTree), allReadable t = true →
    calculate_folder_size t = .ok (sumFiles t)
  | .file n s ls, _ => rfl
  | .broken n, h => by simp [allReadable] at h
  | .dir n r es, h => by
      simp only [allReadable, Bool.and_eq_true] at h
      simp [calculate_folder_size, h.1, sumFiles, calcList_ok es h.2]

theorem calcList_ok : ∀ (es : List FSTree), allReadableList es = true →
    folderSizeList es = .ok (sumFilesList es)
  | [], _ => rfl
  | e :: es, h => by
      simp only [allReadableList, Bool.and_eq_true] at h
      simp [folderSizeList, calc_ok e h.1, calcList_ok es h.2, sumFilesList]

end

theorem sumFilesList_eq_map (l : List FSTree) : sumFilesList l = (l.map sumFiles).sum := by
  induction l with
  | nil => rfl
  | cons e es ih => simp [sumFilesList, ih]

theorem allReadableList_eq_all (l : List FSTree) : allReadableList l = l.all allReadable := by
  induction l with
  | nil => rfl
  | cons e es ih => simp [allReadableList, ih, List.all]

theorem perm_all_eq {α : Type} (p : α → Bool) {l l' : List α} (h : l.Perm l') :
    l.all p = l'.all p := by
  induction h with
  | nil => rfl
  | cons x _ ih => simp [List.all_cons, ih]
  | swap x y l => simp only [List.all_cons]; rw [Bool.and_left_comm]
  | trans _ _ ih1 ih2 => exact ih1.trans ih2

mutual

theorem treePerm_sumFiles : ∀ (T T' : FSTree), TreePerm T T' → sumFiles T = sumFiles T'
  | .file _ _ _, .file _ _ _, h => by
      simp only [TreePerm] at h
      simp [sumFiles, h.2.1]
  | .broken _, .broken _, _ => rfl
  | .dir _ _ es, .dir _ _ es', h => by
      simp only [TreePerm] at h
      obtain ⟨-, -, mid, hal, hperm⟩ := h
      have h1 : sumFilesList es = sumFilesList mid := aligned_sumFiles es mid hal
      have h2 : sumFilesList mid = sumFilesList es' := by
        rw [sumFilesList_eq_map, sumFilesList_eq_map]
        exact (hperm.map sumFiles).sum_eq
      simp [sumFiles, h1, h2]
  | .file _ _ _, .broken _, h => by simp [TreePerm] at h
  | .file _ _ _, .dir _ _ _, h => by simp [TreePerm] at h
  | .broken _, .file _ _ _, h => by simp [TreePerm] at h
  | .broken _, .dir _ _ _, h => by simp [TreePerm] at h
  | .dir _ _ _, .file _ _ _, h => by simp [TreePerm] at h
  | .dir _ _ _, .broken _, h => by simp [TreePerm] at h

theorem aligned_sumFiles : ∀ (l l' : List FSTree), Aligned l l' →
    sumFilesList l = sumFilesList l'
  | [], [], _ => rfl
  | t :: l, t' :: l', h => by
      simp only [Aligned] at h
      simp [sumFilesList, treePerm_sumFiles t t' h.1, aligned_sumFiles l l' h.2]
  | [], _ :: _, h => by simp [Aligned] at h
  | _ :: _, [], h => by simp [Aligned] at h

end

mutual

theorem treePerm_allReadable : ∀ (T T' : FSTree), TreePerm T T' →
    allReadable T = allReadable T'
  | .file _ _ _, .file _ _ _, _ => rfl
  | .broken _, .broken _, _ => rfl
  | .dir _ _ es, .dir _ _ es', h => by
      simp only [TreePerm] at h
      obtain ⟨-, hr, mid, hal, hperm⟩ := h
      have h1 : allReadableList es = allReadableList mid := aligned_allReadable es mid hal
      have h2 : allReadableList mid = allReadableList es' := by
        rw [allReadableList_eq_all, allReadableList_eq_all]
        exact perm_all_eq allReadable hperm
      simp [allReadable, h1, h2, hr]
  | .file _ _ _, .broken _, h => by simp [TreePerm] at h
  | .file _ _ _, .dir _ _ _, h => by simp [TreePerm] at h
  | .broken _, .file _ _ _, h => by simp [TreePerm] at h
  | .broken _, .dir _ _ _, h => by simp [TreePerm] at h
  | .dir _ _ _, .file _ _ _, h => by simp [TreePerm] at h
  | .dir _ _ _, .broken _, h => by simp [TreePerm] at h

theorem aligned_allReadable : ∀ (l l' : List FSTree), Aligned l l' →
    allReadableList l = allReadableList l'
  | [], [], _ => rfl
  | t :: l, t' :: l', h => by
      simp only [Aligned] at h
      simp [allReadableList, treePerm_allReadable t t' h.1, aligned_allReadable l l' h.2]
  | [], _ :: _, h => by simp [Aligned] at h
  | _ :: _, [], h => by simp [Aligned] at h

end

mutual

theorem treePermRefl : ∀ (t : FSTree), TreePerm t t
  | .file n s ls => by simp [TreePerm]
  | .broken n => by simp [TreePerm]
  | .dir n r es => by
      simp [TreePerm]
      exact ⟨es, alignedRefl es, List.Perm.refl es⟩

theorem alignedRefl : ∀ (l : List FSTree), Aligned l l
  | [] => by simp [Aligned]
  | t :: l => by
      simp only [Aligned]
      exact ⟨treePermRefl t, alignedRefl l⟩

end

theorem index_dir_eval (path : FsPath) (n : String) (es : List FSTree) (g : Gitignore)
    (nm : String) (h : file_name path = some nm)
    (hmatch : (read_gitignore path es).matched path true = false)
    (hnp : (indexChildren path es (read_gitignore path es)).any Outcome.isPanic = false) :
    index_folder path (.dir n true es) g =
      .ok (.mk nm (sumSizes (survivingChildren path es)) .Directory
        (survivingChildren path es)) := by
  simp only [index_folder, h, hmatch, Bool.false_eq_true, if_false, if_true, hnp]
  rw [foldl_add_child]
  simp [survivingChildren]

mutual

theorem index_inv : ∀ (path : FsPath) (t : FSTree) (g : Gitignore) (node : FileNode),
    index_folder path t g = .ok node → sizeInvariant node = true
  | path, .file n s ls, g, node, h => by
      simp only [index_folder] at h
      split at h
      · exact absurd h (by simp)
      · split at h <;> (injection h with h; subst h; rfl)
  | _, .broken n, g, node, h => by
      simp only [index_folder] at h
      exact absurd h (by simp)
  | path, .dir n r es, g, node, h => by
      simp only [index_folder] at h
      split at h
      · exact absurd h (by simp)
      · split at h
        · split at h
          · exact absurd h (by simp)
          · injection h with h; subst h; rfl
        · split at h
          · split at h
            · exact absurd h (by simp)
            · injection h with h
              subst h
              rw [foldl_add_child]
              simp only [sizeInvariant, Nat.zero_add, List.nil_append]
              have hc := children_inv path es (read_gitignore path es)
              simp [hc]
          · exact absurd h (by simp)

theorem children_inv : ∀ (path : FsPath) (es : List FSTree) (g : Gitignore),
    sizeInvariantList ((indexChildren path es g).filterMap Outcome.toOption) = true
  | _, [], _ => rfl
  | path, e :: es, g => by
      have ih := children_inv path es g
      simp only [indexChildren, List.filterMap_cons]
      cases hi : index_folder (path ++ [e.name]) e g with
      | ok c =>
          have hc := index_inv (path ++ [e.name]) e g c hi
          simp [Outcome.toOption, sizeInvariantList, hc, ih]
      | err => simp [Outcome.toOption, ih]
      | panicked => simp [Outcome.toOption, ih]

end

mutual

theorem index_size : ∀ (path : FsPath) (t : FSTree) (g : Gitignore) (nm : String),
    file_name path = some nm → noIgnoreFiles t = true → allReadable t = true →
    wellNamed t = true →
    ∃ node, index_folder path t g = .ok node ∧ node.size = sumFiles t
  | path, .file n s ls, g, nm, h, _, _, _ => by
      refine ⟨.mk nm s .File [], ?_, rfl⟩
      simp only [index_folder, h]
      split <;> rfl
  | _, .broken n, g, nm, _, _, hr, _ => by simp [allReadable] at hr
  | path, .dir n r es, g, nm, h, hni, hr, hw => by
      simp only [noIgnoreFiles] at hni
      simp only [allReadable, Bool.and_eq_true] at hr
      simp only [wellNamed, Bool.and_eq_true] at hw
      have hmatch : (read_gitignore path es).matched path true = false := by
        simp [read_gitignore, findIgnoreLines_eq_nil hni, matched_nil]
      have hnp := children_no_panic path es (read_gitignore path es) hw.2
      obtain rfl : r = true := hr.1
      refine ⟨_, index_dir_eval path n es g nm h hmatch hnp, ?_⟩
      have hsum := children_size path es (read_gitignore path es) hni hr.2 hw.2
      simp [FileNode.size, survivingChildren, hsum, sumFiles]

theorem children_size : ∀ (path : FsPath) (es : List FSTree) (g : Gitignore),
    noIgnoreFilesList es = true → allReadableList es = true → wellNamedList es = true →
    sumSizes ((indexChildren path es g).filterMap Outcome.toOption) = sumFilesList es
  | _, [], _, _, _, _ => rfl
  | path, e :: es, g, hni, hr, hw => by
      simp only [noIgnoreFilesList, Bool.and_eq_true] at hni
      simp only [allReadableList, Bool.and_eq_true] at hr
      simp only [wellNamedList, Bool.and_eq_true] at hw
      obtain ⟨node, hnode, hsize⟩ := index_size (path ++ [e.name]) e g e.name
        (file_name_append path e.name (goodName_of_wellNamed hw.1)) hni.1 hr.1 hw.1
      have ih := children_size path es g hni.2 hr.2 hw.2
      simp [indexChildren, List.filterMap_cons, hnode, Outcome.toOption, sumSizes,
        hsize, ih, sumFilesList]

end

theorem folderSizeList_error {es : List FSTree} {e : FSTree} (he : e ∈ es)
    (herr : calculate_folder_size e = .error ()) : folderSizeList es = .error () := by
  induction es with
  | nil => cases he
  | cons a es ih =>
      rcases List.mem_cons.mp he with rfl | hmem
      · simp [folderSizeList, herr]
      · cases ha : calculate_folder_size a with
        | error e' => simp [folderSizeList, ha]
        | ok s => simp [folderSizeList, ha, ih hmem]

theorem read_gitignore_all_invalid (path : FsPath) (es : List FSTree) (p : FsPath) (d : Bool)
    (h : ((findIgnoreLines es).all fun l => !l.valid) = true) :
    (read_gitignore path es).matched p d = false := by
  have hnil : (findIgnoreLines es).filter (·.valid) = [] := by
    rw [List.filter_eq_nil_iff]
    intro l hl
    have := List.all_eq_true.mp h l hl
    simp_all
  simp only [read_gitignore, hnil]
  exact matched_nil path p d

theorem matched_from_valid_line (path : FsPath) (es : List FSTree) (p : FsPath) (d : Bool)
    (h : (read_gitignore path es).matched p d = true) :
    ∃ l ∈ findIgnoreLines es, l.valid = true := by
  simp only [read_gitignore, Gitignore.matched] at h
  split at h
  · exact absurd h (by simp)
  · rw [List.any_eq_true] at h
    obtain ⟨l, hl, -⟩ := h
    rw [List.mem_filter] at hl
    exact ⟨l, hl.1, by simpa using hl.2⟩

theorem parseNodeType_tag (t : NodeType) : parseNodeType (.str t.tag) = some t := by
  cases t <;> rfl

mutual

theorem parse_serialize : ∀ (t : FileNode), parseNode (serializeNode t) = some t
  | .mk n s k cs => by
      have ih := parse_serializeList cs
      simp [serializeNode, parseNode, getField, parseNodeType_tag, ih]

theorem parse_serializeList : ∀ (cs : List FileNode),
    parseNodeList (serializeNodeList cs) = some cs
  | [] => by simp [serializeNodeList, parseNodeList]
  | c :: cs => by
      simp [serializeNodeList, parseNodeList, parse_serialize c, parse_serializeList cs]

end

theorem index_file_eval (path : FsPath) (g : Gitignore) (nm n : String) (s : Nat)
    (ls : List Pattern) (h : file_name path = some nm) :
    index_folder path (.file n s ls) g = .ok (.mk nm s .File []) := by
  simp only [index_folder, h]
  split <;> rfl

theorem index_file_no_name (path : FsPath) (g : Gitignore) (n : String) (s : Nat)
    (ls : List Pattern) (h : file_name path = none) :
    index_folder path (.file n s ls) g = .panicked := by
  simp [index_folder, h]

theorem index_dir_no_name (path : FsPath) (g : Gitignore) (n : String) (r : Bool)
    (es : List FSTree) (h : file_name path = none) :
    index_folder path (.dir n r es) g = .panicked := by
  simp [index_folder, h]

/-! Concrete filesystems used by the witnesses and counterexamples. -/

/-- C1 scenario: a root holding a 12-byte `.gitignore` whose only line is the
directory-only pattern `build/`, plus a directory `build` holding one 100-byte
file and nothing else. -/
def c1Entries : List FSTree :=
  [.file ".gitignore" 12 [⟨"build", true, true⟩],
   .dir "build" true [.file "out.bin" 100 []]]

def c1Tree : FSTree := .dir "root" true c1Entries

/-- The rule set `main` loads for the root before indexing. -/
def c1Root : Gitignore := read_gitignore ["root"] c1Entries

/-- What indexing the C1 scenario actually produces. -/
def c1Result : FileNode :=
  .mk "root" 112 .Directory
    [.mk ".gitignore" 12 .File [],
     .mk "build" 100 .Directory [.mk "out.bin" 100 .File []]]

def c2Tree : FSTree := .dir "r" true [.file "a" 5 [], .file "b" 3 []]

def c2Tree' : FSTree := .dir "r" true [.file "b" 3 [], .file "a" 5 []]

/-- The spec §8 scenario: `a.txt` (5 bytes), `b.txt` (3 bytes), `sub/c.txt`
(10 bytes), no ignore file anywhere. -/
def c3Tree : FSTree :=
  .dir "root" true
    [.file "a.txt" 5 [], .file "b.txt" 3 [], .dir "sub" true [.file "c.txt" 10 []]]

/-- The node indexing the C3 scenario produces. -/
def c4Node : FileNode :=
  .mk "root" 18 .Directory
    [.mk "a.txt" 5 .File [], .mk "b.txt" 3 .File [],
     .mk "sub" 10 .Directory [.mk "c.txt" 10 .File []]]

/-- One readable 5-byte file next to one entry whose stat fails. -/
def c5Entries : List FSTree := [.file "a" 5 [], .broken "x"]

/-- An ignore file holding one malformed line and one valid `build/` line. -/
def c7MixedEntries : List FSTree :=
  [.file ".gitignore" 20 [⟨"[", false, false⟩, ⟨"build", true, true⟩]]

/-- An ignore file holding only a malformed line. -/
def c7BadEntries : List FSTree := [.file ".gitignore" 8 [⟨"[", false, false⟩]]

/-! The claims. -/

/-- Claim C1 is false on the code (counterexample): in the scenario — root holding an
ignore file excluding `build/` plus a `build` directory with one 100-byte file —
`index_folder` returns a root node with two children (the ignore file itself is a
child), and neither child is an `IgnoredDirectory`: the recursive call for `build`
loads a fresh rule set from `build` itself, which is empty, and a directory never
matches the rule set rooted at itself, so the root's `build/` pattern never takes
effect. -/
theorem C1_counterexample :
    index_folder ["root"] c1Tree c1Root = .ok c1Result ∧
    c1Result.children.length = 2 ∧
    (c1Result.children.all fun c => c.node_type != .IgnoredDirectory) = true :=
  ⟨rfl, rfl, rfl⟩

/-- Claim C1 (amended): in the scenario, `index_folder` returns a `Directory` root of
size 112 with exactly two children: a `File` node for the 12-byte ignore file and an
ordinary `Directory` node named by the base name `build` with size 100 holding the
100-byte file — no `IgnoredDirectory` node is produced, because each directory level
reloads its rule set from its own ignore file, discarding the parent's. -/
theorem C1_indexed_scenario :
    index_folder ["root"] c1Tree c1Root =
      .ok (.mk "root" 112 .Directory
        [.mk ".gitignore" 12 .File [],
         .mk "build" 100 .Directory [.mk "out.bin" 100 .File []]]) :=
  rfl

/-- Claim C2: for every directory tree whose entries are all readable,
`calculate_folder_size` returns exactly the sum of the byte lengths of every file
reachable from the tree, and any tree obtained by permuting sibling entries (the
traversal and reduction order of the concurrent fan-out) yields that same value. -/
theorem C2_total_size_sum (T T' : FSTree) (hr : allReadable T = true)
    (hp : TreePerm T T') :
    calculate_folder_size T = .ok (sumFiles T) ∧
    calculate_folder_size T' = .ok (sumFiles T) := by
  have h1 := calc_ok T hr
  have hr' : allReadable T' = true := (treePerm_allReadable T T' hp) ▸ hr
  have h2 := calc_ok T' hr'
  rw [← treePerm_sumFiles T T' hp] at h2
  exact ⟨h1, h2⟩

theorem C2_witness :
    allReadable c2Tree = true ∧
    calculate_folder_size c2Tree = .ok (sumFiles c2Tree) ∧
    calculate_folder_size c2Tree' = .ok (sumFiles c2Tree) := by
  have hp : TreePerm c2Tree c2Tree' := by
    simp only [c2Tree, c2Tree', TreePerm, true_and]
    exact ⟨[.file "a" 5 [], .file "b" 3 []], alignedRefl _, List.Perm.swap _ _ _⟩
  exact ⟨rfl, C2_total_size_sum c2Tree c2Tree' rfl hp⟩

/-- Claim C3: for every tree with no ignore-pattern file anywhere and no read
errors (and real entry names, indexed at a path with a final component), the
indexing engine and the standalone aggregator agree: `index_folder` succeeds with a
node whose `size` is exactly what `calculate_folder_size` returns. -/
theorem C3_index_eq_total (path : FsPath) (t : FSTree) (g : Gitignore) (nm : String)
    (hnm : file_name path = some nm) (hni : noIgnoreFiles t = true)
    (hr : allReadable t = true) (hw : wellNamed t = true) :
    ∃ node, index_folder path t g = .ok node ∧
      calculate_folder_size t = .ok node.size := by
  obtain ⟨node, hidx, hsz⟩ := index_size path t g nm hnm hni hr hw
  exact ⟨node, hidx, by rw [calc_ok t hr, hsz]⟩

theorem C3_witness :
    file_name ["root"] = some "root" ∧ noIgnoreFiles c3Tree = true ∧
    allReadable c3Tree = true ∧ wellNamed c3Tree = true ∧
    ∃ node, index_folder ["root"] c3Tree ⟨[], []⟩ = .ok node ∧
      calculate_folder_size c3Tree = .ok node.size :=
  ⟨rfl, rfl, rfl, rfl, C3_index_eq_total ["root"] c3Tree ⟨[], []⟩ "root" rfl rfl rfl rfl⟩

/-- Claim C4: every node of every tree `index_folder` returns satisfies the §3
invariant — a `Directory` node's size equals the sum of its children's sizes, and a
`File` or `IgnoredDirectory` node has an empty children sequence (children are
non-empty only for `Directory`). -/
theorem C4_node_invariant (path : FsPath) (t : FSTree) (g : Gitignore)
    (node : FileNode) (h : index_folder path t g = .ok node) :
    sizeInvariant node = true :=
  index_inv path t g node h

theorem C4_witness :
    index_folder ["root"] c3Tree ⟨[], []⟩ = .ok c4Node ∧
    sizeInvariant c4Node = true :=
  ⟨rfl, C4_node_invariant ["root"] c3Tree ⟨[], []⟩ c4Node rfl⟩

/-- Claim C5: when a directory (readable, not matched as ignored by its own fresh
rule set) is indexed, every direct child whose read or stat fails is silently
dropped: the result is a successful `Directory` node whose children are exactly
the survivors — each entry's indexing outcome filtered through `toOption` — and
whose size counts only those survivors, with no error recorded anywhere. -/
theorem C5_lenient_children (path : FsPath) (n : String) (es : List FSTree)
    (g : Gitignore) (nm : String) (hnm : file_name path = some nm)
    (hw : wellNamedList es = true)
    (hm : (read_gitignore path es).matched path true = false) :
    index_folder path (.dir n true es) g =
      .ok (.mk nm (sumSizes (survivingChildren path es)) .Directory
        (survivingChildren path es)) ∧
    survivingChildren path es =
      es.filterMap fun e =>
        (index_folder (path ++ [e.name]) e (read_gitignore path es)).toOption := by
  refine ⟨index_dir_eval path n es g nm hnm hm (children_no_panic path es _ hw), ?_⟩
  rw [survivingChildren, indexChildren_eq_map, List.filterMap_map]
  rfl

theorem C5_witness :
    file_name ["d"] = some "d" ∧ wellNamedList c5Entries = true ∧
    (read_gitignore ["d"] c5Entries).matched ["d"] true = false ∧
    index_folder ["d"] (.dir "d" true c5Entries) ⟨[], []⟩ =
      .ok (.mk "d" (sumSizes (survivingChildren ["d"] c5Entries)) .Directory
        (survivingChildren ["d"] c5Entries)) :=
  ⟨rfl, rfl, rfl, (C5_lenient_children ["d"] "d" c5Entries ⟨[], []⟩ "d" rfl rfl rfl).1⟩

/-- Claim C6: the aggregator is strict — it fails when the path itself cannot be
stat'ed, when the directory cannot be read, and whenever any child's computation
fails, the whole aggregation fails (no partial or best-effort sum). -/
theorem C6_strict_aggregation :
    (∀ n, calculate_folder_size (.broken n) = .error ()) ∧
    (∀ n es, calculate_folder_size (.dir n false es) = .error ()) ∧
    (∀ n es e, e ∈ es → calculate_folder_size e = .error () →
      calculate_folder_size (.dir n true es) = .error ()) := by
  refine ⟨fun n => rfl, fun n es => rfl, fun n es e he herr => ?_⟩
  simp [calculate_folder_size, folderSizeList_error he herr]

theorem C6_witness :
    FSTree.broken "x" ∈ [FSTree.broken "x"] ∧
    calculate_folder_size (.broken "x") = .error () ∧
    calculate_folder_size (.dir "d" true [.broken "x"]) = .error () :=
  ⟨by simp, C6_strict_aggregation.1 "x",
   C6_strict_aggregation.2.2 "d" [.broken "x"] (.broken "x") (by simp) rfl⟩

/-- Claim C7 is false on the code (counterexample): a malformed ignore-pattern file
does not fall back to an empty, match-nothing rule set — with one malformed line
and one valid `build/` line, the built rule set still matches `build`. -/
theorem C7_counterexample :
    ((findIgnoreLines c7MixedEntries).any fun l => !l.valid) = true ∧
    (read_gitignore ["d"] c7MixedEntries).matched ["d", "build"] true = true :=
  ⟨rfl, rfl⟩

/-- Claim C7 (amended): building the rule set never fails — the error `add` reports
for malformed lines is discarded and those lines are skipped — but the fallback is
not an empty rule set: the set matches nothing only when no line is valid, and any
match the built set reports comes from a valid line. -/
theorem C7_skip_malformed :
    (∀ path es p d, ((findIgnoreLines es).all fun l => !l.valid) = true →
      (read_gitignore path es).matched p d = false) ∧
    (∀ path es p d, (read_gitignore path es).matched p d = true →
      ∃ l ∈ findIgnoreLines es, l.valid = true) :=
  ⟨read_gitignore_all_invalid, matched_from_valid_line⟩

theorem C7_witness :
    ((findIgnoreLines c7BadEntries).all fun l => !l.valid) = true ∧
    (read_gitignore ["d"] c7BadEntries).matched ["d", "build"] true = false :=
  ⟨rfl, C7_skip_malformed.1 ["d"] c7BadEntries ["d", "build"] true rfl⟩

/-- Claim C8: serializing a `FileNode` tree to the structured (JSON) form and
parsing it back is lossless — it reproduces the very same tree, hence the same
name, size and node_type at every position. -/
theorem C8_roundtrip (t : FileNode) : parseNode (serializeNode t) = some t :=
  parse_serialize t

/-- Claim C9: a path naming a regular file is always indexed as a `File` node
whose size is the file's byte length, and the result does not depend on the rule
set at all — the ignore check performed on files never alters the outcome. -/
theorem C9_file_ignore_irrelevant (path : FsPath) (nm n : String) (s : Nat)
    (ls : List Pattern) (g g' : Gitignore) (h : file_name path = some nm) :
    index_folder path (.file n s ls) g = .ok (.mk nm s .File []) ∧
    index_folder path (.file n s ls) g = index_folder path (.file n s ls) g' := by
  have h1 := index_file_eval path g nm n s ls h
  have h2 := index_file_eval path g' nm n s ls h
  exact ⟨h1, h1.trans h2.symm⟩

theorem C9_witness :
    file_name ["d", "a.txt"] = some "a.txt" ∧
    (⟨["d"], [⟨"a.txt", false, true⟩]⟩ : Gitignore).matched ["d", "a.txt"] false = true ∧
    (⟨["d"], []⟩ : Gitignore).matched ["d", "a.txt"] false = false ∧
    index_folder ["d", "a.txt"] (.file "a.txt" 7 []) ⟨["d"], [⟨"a.txt", false, true⟩]⟩ =
      .ok (.mk "a.txt" 7 .File []) ∧
    index_folder ["d", "a.txt"] (.file "a.txt" 7 []) ⟨["d"], [⟨"a.txt", false, true⟩]⟩ =
      index_folder ["d", "a.txt"] (.file "a.txt" 7 []) ⟨["d"], []⟩ :=
  ⟨rfl, rfl, rfl,
   C9_file_ignore_irrelevant ["d", "a.txt"] "a.txt" "a.txt" 7 []
     ⟨["d"], [⟨"a.txt", false, true⟩]⟩ ⟨["d"], []⟩ rfl⟩

/-- Claim C10: `index_folder` unconditionally unwraps `path.file_name()`: whenever
the indexed path has no final name component (the stat itself succeeding), indexing
panics — it does not return an I/O error — for files and directories alike; and
under the precondition that the path has a final component (with real entry names
below), the panic branch is unreachable. -/
theorem C10_unwrap_panics :
    (∀ path g n s ls, file_name path = none →
      index_folder path (.file n s ls) g = .panicked) ∧
    (∀ path g n r es, file_name path = none →
      index_folder path (.dir n r es) g = .panicked) ∧
    (∀ path t g nm, file_name path = some nm → wellNamed t = true →
      index_folder path t g ≠ .panicked) :=
  ⟨fun path g n s ls h => index_file_no_name path g n s ls h,
   fun path g n r es h => index_dir_no_name path g n r es h,
   fun path t g nm h hw => index_no_panic path t g nm h hw⟩

theorem C10_witness :
    file_name [] = none ∧ file_name ["a", ".."] = none ∧
    index_folder [] (.dir "r" true []) ⟨[], []⟩ = .panicked ∧
    index_folder ["a", ".."] (.file "f" 3 []) ⟨[], []⟩ = .panicked ∧
    file_name ["r"] = some "r" ∧ wellNamed (.dir "r" true []) = true ∧
    index_folder ["r"] (.dir "r" true []) ⟨[], []⟩ ≠ .panicked :=
  ⟨rfl, rfl,
   C10_unwrap_panics.2.1 [] ⟨[], []⟩ "r" true [] rfl,
   C10_unwrap_panics.1 ["a", ".."] ⟨[], []⟩ "f" 3 [] rfl,
   rfl, rfl,
   C10_unwrap_panics.2.2 ["r"] (.dir "r" true []) ⟨[], []⟩ "r" rfl rfl⟩

end FsIndex

